import Mathlib

/-!
Verification development for the `github_repair` repository (file `go.py`).

The script provisions governance files (LICENSE, README.md, AGENTS.md,
.gitignore, optionally REPO_STATS.md) into local git mirrors of GitHub
repositories.  The pure computational core of the script is modelled here
as a shallow embedding: Python strings become `List Char`, Python `dict`
values (whose iteration order is insertion order) become association
lists, fallible functions return `Except`, and the filesystem / git
subprocess layer is abstracted into explicit oracles whose invocations
are recorded as traces.
-/

/-! Section 1: models of the Python string primitives used by `go.py`.
Python `str.strip` / `lstrip` / `rstrip` with no argument remove
whitespace from the ends; `s.split(c)` splits on every occurrence of a
one-character separator (yielding `len+1` pieces); `sep.join(parts)`
interleaves; `pat in s` is substring containment; `s.startswith(p)` is a
prefix test. -/

/-- Model of Python `str.lstrip()`: drop leading whitespace. -/
def pyLstrip (l : List Char) : List Char :=
  l.dropWhile Char.isWhitespace

/-- Model of Python `str.rstrip()`: drop trailing whitespace. -/
def pyRstrip (l : List Char) : List Char :=
  (l.reverse.dropWhile Char.isWhitespace).reverse

/-- Model of Python `str.strip()`: drop whitespace at both ends. -/
def pyStrip (l : List Char) : List Char :=
  pyRstrip (pyLstrip l)

/-- Boolean test: does the string hold at least one non-whitespace character. -/
def hasNonWs (l : List Char) : Bool :=
  l.any fun c => !c.isWhitespace

/-- Model of Python `str.startswith(pat)`: is `pat` a prefix of `l`. -/
def seqStarts : List Char → List Char → Bool
  | _, [] => true
  | [], _ :: _ => false
  | c :: cs, p :: ps => c = p && seqStarts cs ps

/-- Model of Python substring containment `pat in l`. -/
def containsSeq (l pat : List Char) : Bool :=
  match l with
  | [] => seqStarts [] pat
  | _ :: cs => seqStarts l pat || containsSeq cs pat

/-- Model of Python `s.split(c)` for a one-character separator: every
occurrence of `c` splits, so the result has one more piece than there are
occurrences of `c`, and pieces may be empty. -/
def pySplitChar (c : Char) : List Char → List (List Char)
  | [] => [[]]
  | x :: xs =>
    if x = c then [] :: pySplitChar c xs
    else
      match pySplitChar c xs with
      | y :: ys => (x :: y) :: ys
      | [] => [[x]]

/-- Model of Python `sep.join(parts)`. -/
def pyJoin (sep : List Char) : List (List Char) → List Char
  | [] => []
  | [x] => x
  | x :: y :: ys => x ++ sep ++ pyJoin sep (y :: ys)

/-- Suffix of the string starting at its last dot (inclusive), when a dot
is present.  Used to model the dot arithmetic of `os.path.splitext`. -/
def lastDotSuffix : List Char → Option (List Char)
  | [] => none
  | c :: cs =>
    match lastDotSuffix cs with
    | some s => some s
    | none => if c = '.' then some (c :: cs) else none

/-- Model of the extension component of Python `os.path.splitext(p)`:
take the basename (after the last path separator), skip its leading dots
(a leading-dot file such as `.gitignore` has no extension), and return
the suffix from the last remaining dot, if any.  This mirrors CPython's
`genericpath._splitext`, which yields an extension only when some
character of the basename strictly before the last dot is not a dot. -/
def splitextExtOf (p : List Char) : List Char :=
  let b := (pySplitChar '/' p).getLastD []
  let r := b.dropWhile (fun c => c = '.')
  match lastDotSuffix r with
  | some s => s
  | none => []

/-- Model of Python `os.path.splitext(p)`: root and extension. -/
def os_path_splitext (p : List Char) : List Char × List Char :=
  let e := splitextExtOf p
  (p.take (p.length - e.length), e)

/-- Model of `os.path.join(d, n)` for a relative second component, as the
script always uses it. -/
def pathJoin (d n : List Char) : List Char :=
  d ++ '/' :: n

/-- Model of `os.path.relpath(p, d)` for the only case the script exercises:
`p` is a path directly under directory `d`. -/
def pyRelpath (p d : List Char) : List Char :=
  if seqStarts p (d ++ ['/']) then p.drop (d.length + 1) else p

/-- Helper for `fileLines`: accumulate the current (reversed) line. -/
def fileLinesAux (acc : List Char) : List Char → List (List Char)
  | [] => if acc = [] then [] else [acc.reverse]
  | c :: cs =>
    if c = '\n' then (acc.reverse ++ ['\n']) :: fileLinesAux [] cs
    else fileLinesAux (c :: acc) cs

/-- Model of Python text-file line iteration: each line keeps its trailing
newline; a final fragment without a newline is still yielded. -/
def fileLines (l : List Char) : List (List Char) :=
  fileLinesAux [] l

/-- Model of Python `line.rstrip("\n")`: drop trailing newline characters only. -/
def pyRstripNl (l : List Char) : List Char :=
  (l.reverse.dropWhile (fun c => c = '\n')).reverse

/-! Section 2: the Template Store of `go.py` (`GITIGNORE_TEMPLATES` and
`EXTENSION_LANGUAGE_MAP`), transcribed verbatim from the source.  Python
dictionaries iterate in insertion order, so they are embedded as
association lists in source order. -/

/-- Template `GITIGNORE_TEMPLATES["base"]` of `go.py`. -/
def gitignoreBase : String :=
  "# General\n.DS_Store\nThumbs.db\n*.log\n*.tmp\n*.swp\n*.swo\n\n# Editors\n.vscode/\n.idea/\n*.iml\n\n# Environments\n.env\n.env.*\n"

/-- Template `GITIGNORE_TEMPLATES["python"]` of `go.py`. -/
def gitignorePython : String :=
  "# Python\n__pycache__/\n*.py[cod]\n*$py.class\n\n# Distribution / packaging\nbuild/\ndist/\n.eggs/\n*.egg-info/\n\n# Virtual environments\n.venv/\nvenv/\nenv/\n\n# Tooling\n.mypy_cache/\n.pytest_cache/\n.coverage\nhtmlcov/\n.tox/\n"

/-- Template `GITIGNORE_TEMPLATES["node"]` of `go.py`. -/
def gitignoreNode : String :=
  "# Node / JS / TS\nnode_modules/\nnpm-debug.log*\nyarn-debug.log*\npnpm-debug.log*\n\n# Build outputs\ndist/\nbuild/\n.cache/\n.next/\n.nuxt/\n\n# Tooling\ncoverage/\n.npm/\n.eslintcache\n"

/-- Template `GITIGNORE_TEMPLATES["java"]` of `go.py`. -/
def gitignoreJava : String :=
  "# Java\n*.class\n*.jar\n*.war\n*.ear\nhs_err_pid*\nout/\ntarget/\n"

/-- Template `GITIGNORE_TEMPLATES["csharp"]` of `go.py`. -/
def gitignoreCsharp : String :=
  "# C#\n[Bb]in/\n[Oo]bj/\n*.user\n*.suo\n*.pdb\n*.cache\n*.mdb\n*.opendb\n*.VC.db\n"

/-- Template `GITIGNORE_TEMPLATES["go"]` of `go.py`. -/
def gitignoreGoLang : String :=
  "# Go\nbin/\n*.test\n"

/-- Template `GITIGNORE_TEMPLATES["rust"]` of `go.py`. -/
def gitignoreRust : String :=
  "# Rust\ntarget/\n*.rs.bk\n"

/-- Template `GITIGNORE_TEMPLATES["cpp"]` of `go.py`. -/
def gitignoreCpp : String :=
  "# C / C++\n*.o\n*.obj\n*.so\n*.dll\n*.dylib\n*.exe\n*.out\nbuild/\ncmake-build-*/\n"

/-- Template `GITIGNORE_TEMPLATES["php"]` of `go.py`. -/
def gitignorePhp : String :=
  "# PHP\nvendor/\ncomposer.lock\n"

/-- Template `GITIGNORE_TEMPLATES["ruby"]` of `go.py`. -/
def gitignoreRuby : String :=
  "# Ruby\n.bundle/\nvendor/bundle/\nlog/\ntmp/\ncoverage/\n"

/-- Template `GITIGNORE_TEMPLATES["swift"]` of `go.py`. -/
def gitignoreSwift : String :=
  "# Swift\n.build/\nDerivedData/\nPackage.resolved\n"

/-- Template `GITIGNORE_TEMPLATES["kotlin"]` of `go.py`. -/
def gitignoreKotlin : String :=
  "# Kotlin / Gradle\n.gradle/\nbuild/\nout/\n"

/-- Lookup in an association list, modelling Python `dict.get` on a dict
with unique keys. -/
def assocLookup (m : List (List Char × List Char)) (k : List Char) : Option (List Char) :=
  match m with
  | [] => none
  | (k2, v) :: rest => if k2 = k then some v else assocLookup rest k

/-- The dictionary `GITIGNORE_TEMPLATES` of `go.py`, in source order. -/
def GITIGNORE_TEMPLATES : List (List Char × List Char) :=
  [(("base").data, gitignoreBase.data),
   (("python").data, gitignorePython.data),
   (("node").data, gitignoreNode.data),
   (("java").data, gitignoreJava.data),
   (("csharp").data, gitignoreCsharp.data),
   (("go").data, gitignoreGoLang.data),
   (("rust").data, gitignoreRust.data),
   (("cpp").data, gitignoreCpp.data),
   (("php").data, gitignorePhp.data),
   (("ruby").data, gitignoreRuby.data),
   (("swift").data, gitignoreSwift.data),
   (("kotlin").data, gitignoreKotlin.data)]

/-- The dictionary `EXTENSION_LANGUAGE_MAP` of `go.py`, in source order. -/
def EXTENSION_LANGUAGE_MAP : List (List Char × List Char) :=
  [((".py").data, ("python").data),
   ((".pyw").data, ("python").data),
   ((".js").data, ("node").data),
   ((".mjs").data, ("node").data),
   ((".cjs").data, ("node").data),
   ((".ts").data, ("node").data),
   ((".tsx").data, ("node").data),
   ((".jsx").data, ("node").data),
   ((".java").data, ("java").data),
   ((".cs").data, ("csharp").data),
   ((".go").data, ("go").data),
   ((".rs").data, ("rust").data),
   ((".c").data, ("cpp").data),
   ((".h").data, ("cpp").data),
   ((".cpp").data, ("cpp").data),
   ((".cc").data, ("cpp").data),
   ((".cxx").data, ("cpp").data),
   ((".hpp").data, ("cpp").data),
   ((".hh").data, ("cpp").data),
   ((".hxx").data, ("cpp").data),
   ((".php").data, ("php").data),
   ((".rb").data, ("ruby").data),
   ((".swift").data, ("swift").data),
   ((".kt").data, ("kotlin").data),
   ((".kts").data, ("kotlin").data)]

/-! Section 3: the `RepoStats` container and the Statistics Collector. -/

/-- The `RepoStats` class of `go.py`.  The two `defaultdict(int)` members
are embedded as insertion-ordered association lists, matching Python
dictionary iteration order. -/
structure RepoStats where
  total_files : Int
  total_lines : Int
  by_ext_files : List (List Char × Int)
  by_ext_lines : List (List Char × Int)
deriving DecidableEq, Repr

/-- Fresh `RepoStats()` as built by `__init__`. -/
def RepoStats.empty : RepoStats :=
  ⟨0, 0, [], []⟩

/-- Model of `defaultdict(int)` update `m[k] += v`: add to the entry of an
existing key, or append a new key at the end (Python dicts append newly
created keys in insertion order). -/
def bumpEntry (m : List (List Char × Int)) (k : List Char) (v : Int) : List (List Char × Int) :=
  match m with
  | [] => [(k, v)]
  | (k2, v2) :: rest => if k2 = k then (k2, v2 + v) :: rest else (k2, v2) :: bumpEntry rest k v

/-- Method `RepoStats.record` of `go.py`: one more file, `max(line_count, 0)`
more lines, both totals and per-extension maps updated. -/
def RepoStats.record (st : RepoStats) (ext : List Char) (line_count : Int) : RepoStats :=
  { total_files := st.total_files + 1
    total_lines := st.total_lines + max line_count 0
    by_ext_files := bumpEntry st.by_ext_files ext 1
    by_ext_lines := bumpEntry st.by_ext_lines ext (max line_count 0) }

/-- Extension computation of `collect_repo_stats`:
`os.path.splitext(name)[1].lower()`. -/
def collectExt (name : List Char) : List Char :=
  (os_path_splitext name).2.map Char.toLower

/-- Core of `collect_repo_stats` of `go.py`: the walk itself is I/O, so the
collector is modelled on its input, the list of regular files encountered
(entry name paired with the line count obtained from reading it); each file
is recorded under its lowercased `splitext` extension. -/
def collect_repo_stats (files : List (List Char × Int)) : RepoStats :=
  files.foldl (fun st f => st.record (collectExt f.1) f.2) RepoStats.empty

/-- Replay of an arbitrary sequence of `RepoStats.record` calls starting
from a fresh container. -/
def runRecords (calls : List (List Char × Int)) : RepoStats :=
  calls.foldl (fun st c => st.record c.1 c.2) RepoStats.empty

/-- Sum of the counter values of an association list. -/
def sumVals (m : List (List Char × Int)) : Int :=
  (m.map Prod.snd).sum

/-- Boolean check that every counter value of an association list is
non-negative. -/
def allNonneg (m : List (List Char × Int)) : Bool :=
  m.all fun p => decide (0 ≤ p.2)

/-- Extension description stated from the spec's words, for comparison with
the code's `splitext`-based computation: the lowercase substring of the
filename from the last dot inclusive, or the empty string if the filename
contains no dot. -/
def specExtensionModel (name : List Char) : List Char :=
  match lastDotSuffix name with
  | some s => s.map Char.toLower
  | none => []

/-! Section 4: language detection and ignore-file generation. -/

/-- Function `detect_languages` of `go.py`, threading the `seen` set (its
membership is all Python uses it for) through the iteration over
`stats.by_ext_files.items()`.  Guards appear in source order: falsy
extension, unmapped extension (`dict.get` returning `None`) or falsy
mapped value, non-positive file count, already-seen language. -/
def detectLangsAux (seen : List (List Char)) : List (List Char × Int) → List (List Char)
  | [] => []
  | (ext, file_count) :: rest =>
    if ext = [] then detectLangsAux seen rest
    else
      match assocLookup EXTENSION_LANGUAGE_MAP ext with
      | none => detectLangsAux seen rest
      | some language =>
        if language = [] then detectLangsAux seen rest
        else if file_count ≤ 0 then detectLangsAux seen rest
        else if language ∈ seen then detectLangsAux seen rest
        else language :: detectLangsAux (language :: seen) rest

/-- Function `detect_languages` of `go.py`. -/
def detect_languages (stats : RepoStats) : List (List Char) :=
  detectLangsAux [] stats.by_ext_files

/-- Function `generate_gitignore_content` of `go.py`: right-stripped base
fragment (when present and truthy), then each detected language's
right-stripped fragment (skipping missing or falsy snippets), joined by
one blank line; the whole is stripped and given exactly one trailing
newline, or is empty when nothing remains. -/
def generate_gitignore_content (languages : List (List Char)) : List Char :=
  let parts :=
    (match assocLookup GITIGNORE_TEMPLATES (("base").data) with
     | some b => if b = [] then [] else [pyRstrip b]
     | none => []) ++
    languages.filterMap (fun language =>
      match assocLookup GITIGNORE_TEMPLATES language with
      | some snippet => if snippet = [] then none else some (pyRstrip snippet)
      | none => none)
  let content := pyJoin (("\n\n").data) parts
  if pyStrip content = [] then [] else pyStrip content ++ ['\n']

/-! Section 5: the Hygiene Prober and the File Provisioner.  The
filesystem at the mirror root is abstracted as an oracle
`fs : List Char → Bool` answering `os.path.isfile(os.path.join(repo_dir,
name))` for a candidate filename `name`. -/

/-- Function `has_license` of `go.py`: any of the fixed candidates exists. -/
def has_license (fs : List Char → Bool) : Bool :=
  fs (("LICENSE").data) || fs (("LICENSE.txt").data) || fs (("LICENSE.md").data)

/-- Function `has_readme` of `go.py`. -/
def has_readme (fs : List Char → Bool) : Bool :=
  fs (("README").data) || fs (("README.md").data) || fs (("README.txt").data)

/-- Function `has_agents` of `go.py`. -/
def has_agents (fs : List Char → Bool) : Bool :=
  fs (("AGENTS.md").data)

/-- Function `has_gitignore` of `go.py`. -/
def has_gitignore (fs : List Char → Bool) : Bool :=
  fs ((".gitignore").data)

/-- Path written by `write_gitignore` of `go.py`, or `none` when the
generated content strips to nothing and creation is skipped. -/
def write_gitignore_name (stats : RepoStats) : Option (List Char) :=
  let content := generate_gitignore_content (detect_languages stats)
  if pyStrip content = [] then none else some ((".gitignore").data)

/-- Provisioning step of `process_repo` of `go.py` (the `created_files`
accumulation): each `write_*` helper returns `os.path.join(repo_dir,
name)` for the file it created; a category is written only when its
`has_*` probe fails; the statistics report is appended whenever the flag
is set. -/
def provisionFiles (repo_dir : List Char) (fs : List Char → Bool)
    (stats : RepoStats) (write_stats_file_flag : Bool) : List (List Char) :=
  (if has_license fs then [] else [pathJoin repo_dir (("LICENSE").data)]) ++
  (if has_readme fs then [] else [pathJoin repo_dir (("README.md").data)]) ++
  (if has_agents fs then [] else [pathJoin repo_dir (("AGENTS.md").data)]) ++
  (if has_gitignore fs then []
   else match write_gitignore_name stats with
        | some n => [pathJoin repo_dir n]
        | none => []) ++
  (if write_stats_file_flag then [pathJoin repo_dir (("REPO_STATS.md").data)] else [])

/-! Section 6: the Repository Locator (`normalize_repo_spec`). -/

/-- Function `normalize_repo_spec` of `go.py`: strip the spec; reject the
empty result; a spec holding `://` or starting with `git@` is already a
clone URL whose local name is the basename without its extension; any
other spec is turned into an HTTPS GitHub clone URL, the local name being
the part after the last slash. -/
def normalize_repo_spec (spec : List Char) : Except (List Char) (List Char × List Char) :=
  let cleaned := pyStrip spec
  if cleaned = [] then .error (("Empty repository spec").data)
  else if containsSeq cleaned (("://").data) || seqStarts cleaned (("git@").data) then
    .ok (cleaned, (os_path_splitext ((pySplitChar '/' cleaned).getLastD [])).1)
  else
    .ok (("https://github.com/").data ++ cleaned ++ ((".git").data),
         (pySplitChar '/' cleaned).getLastD [])

/-! Section 7: the Remote Lister's account extraction.  `go.py` calls
`urllib.parse.urlparse`, an external standard-library routine; it is
modelled here (restricted to the `scheme`, `netloc` and `path` components,
the only ones `parse_github_account` reads; the query and fragment are
split off and discarded exactly as `urlsplit` would). -/

/-- Character class of URL scheme bodies (`scheme_chars` of `urllib.parse`). -/
def schemeChar (c : Char) : Bool :=
  c.isAlpha || c.isDigit || c = '+' || c = '-' || c = '.'

/-- Result of the `urlparse` model. -/
structure UrlParts where
  scheme : List Char
  netloc : List Char
  path : List Char
deriving DecidableEq, Repr

/-- Scheme split of `urllib.parse.urlsplit`: a leading alphabetic-headed
run of scheme characters terminated by the first colon becomes the
(lowercased) scheme; otherwise the URL is left whole. -/
def splitSchemePart (url : List Char) : List Char × List Char :=
  let pre := url.takeWhile (fun c => c ≠ ':')
  match url.dropWhile (fun c => c ≠ ':') with
  | [] => ([], url)
  | _ :: after =>
    if pre ≠ [] ∧ (pre.headD ' ').isAlpha ∧ pre.all schemeChar
    then (pre.map Char.toLower, after)
    else ([], url)

/-- Netloc split of `urllib.parse.urlsplit` (`_splitnetloc`): after a
leading `//`, the netloc runs until the first `/`, `?` or `#`, which stays
with the remainder. -/
def splitNetlocPart (u : List Char) : List Char × List Char :=
  match u with
  | '/' :: '/' :: rest =>
    (rest.takeWhile (fun c => c ≠ '/' ∧ c ≠ '?' ∧ c ≠ '#'),
     rest.dropWhile (fun c => c ≠ '/' ∧ c ≠ '?' ∧ c ≠ '#'))
  | _ => ([], u)

/-- Path component: what remains before the first `#` and `?`. -/
def dropFragmentQuery (p : List Char) : List Char :=
  (p.takeWhile (fun c => c ≠ '#')).takeWhile (fun c => c ≠ '?')

/-- Model of Python `urllib.parse.urlparse`, restricted to the components
`parse_github_account` reads. -/
def urlparseModel (url : List Char) : UrlParts :=
  let sp := splitSchemePart url
  let np := splitNetlocPart sp.2
  { scheme := sp.1, netloc := np.1, path := dropFragmentQuery np.2 }

/-- Function `parse_github_account` of `go.py`: strip; reject empty input;
a parsed URL (non-empty scheme or netloc) must mention `github.com` in its
lowercased netloc and yields the first non-empty path segment; a bare
string containing a slash is rejected as a repo URL; any other bare
string is the account name. -/
def parse_github_account (url_or_name : List Char) : Except (List Char) (List Char) :=
  let cleaned := pyStrip url_or_name
  if cleaned = [] then .error (("GitHub URL or account name is required").data)
  else
    let parsed := urlparseModel cleaned
    if parsed.scheme ≠ [] ∨ parsed.netloc ≠ [] then
      if !containsSeq (parsed.netloc.map Char.toLower) (("github.com").data) then
        .error (("Provide a GitHub profile or organization URL").data)
      else
        match (pySplitChar '/' parsed.path).filter (fun part => part ≠ []) with
        | [] => .error (("GitHub URL is missing the account name").data)
        | part :: _ => .ok part
    else if '/' ∈ cleaned then
      .error (("Provide a GitHub account name or profile URL, not a repo URL").data)
    else .ok cleaned

/-! Section 8: the repository list file.  `write_repo_list` writes
`sorted(dict.fromkeys(repos))` one spec per line; `read_repo_list` reads
every line back, stripping only the trailing newline. -/

/-- Model of Python `dict.fromkeys`: de-duplicate keeping the first
occurrence of each entry, in order. -/
def pyDedupAux (seen : List String) : List String → List String
  | [] => []
  | x :: xs => if x ∈ seen then pyDedupAux seen xs else x :: pyDedupAux (x :: seen) xs

/-- De-duplication preserving first occurrences, as `list(dict.fromkeys(l))`. -/
def pyDedup (l : List String) : List String :=
  pyDedupAux [] l

/-- Lexicographic comparison of character lists by code point, the order
Python uses to compare strings. -/
def lexLe : List Char → List Char → Bool
  | [], _ => true
  | _ :: _, [] => false
  | a :: as, b :: bs => if a = b then lexLe as bs else decide (a < b)

/-- Python string comparison `a <= b` (lexicographic by code point). -/
def pyStrLe (a b : String) : Prop :=
  lexLe a.data b.data = true

instance : DecidableRel pyStrLe :=
  fun a b => inferInstanceAs (Decidable (lexLe a.data b.data = true))

/-- Model of Python `sorted` on strings (lexicographic by code point).  On
the duplicate-free lists produced by `dict.fromkeys` every correct sort
returns the same list — the unique ascending reordering — so insertion
sort models `sorted` exactly here. -/
def pySorted (l : List String) : List String :=
  l.insertionSort pyStrLe

/-- Function `write_repo_list` of `go.py`, modelled as the text it writes:
each element of `sorted(dict.fromkeys(repos))` followed by a newline. -/
def write_repo_list (repos : List String) : List Char :=
  (pySorted (pyDedup repos)).foldr (fun r acc => r.data ++ '\n' :: acc) []

/-- Function `read_repo_list` of `go.py`, modelled on the file content it
reads: one entry per line of the file, with the trailing newline stripped
(`line.rstrip("\n")`). -/
def read_repo_list (content : List Char) : List String :=
  (fileLines content).map (fun l => String.mk (pyRstripNl l))

/-! Section 9: the Publisher (`commit_and_push_changes`).  Git runs as a
subprocess; it is abstracted as an oracle `exec` that transforms an
opaque repository state and either succeeds or fails with a stderr text.
Every invocation is recorded in a trace, so "no stage, commit or push was
invoked" is `trace = []`. -/

/-- Git commands the Publisher can issue (`git add`, `git commit -m`,
`git push`). -/
inductive GitCmd
  | add : List Char → GitCmd
  | commit : List Char → GitCmd
  | push : GitCmd
deriving DecidableEq, Repr

/-- Outcome of a Publisher run: final repository state, the git commands
invoked in order, the console lines printed, and the overall result
(`error` models an uncaught `CalledProcessError`). -/
structure GitRun (σ : Type) where
  state : σ
  trace : List GitCmd
  prints : List (List Char)
  result : Except (List Char) Unit

/-- An ASCII apostrophe, used verbatim in the dry-run commit report line. -/
def squote : Char := Char.ofNat 39

/-- Staging loop of `commit_and_push_changes`: run `git add` for each
relative path with `check=True`, so the first failure propagates. -/
def runAdds {σ : Type} (exec : GitCmd → σ → σ × Except (List Char) Unit) :
    List (List Char) → σ → List GitCmd → σ × List GitCmd × Except (List Char) Unit
  | [], s, tr => (s, tr, .ok ())
  | p :: rest, s, tr =>
    match exec (GitCmd.add p) s with
    | (s2, .ok _) => runAdds exec rest s2 (tr ++ [GitCmd.add p])
    | (s2, .error e) => (s2, tr ++ [GitCmd.add p], .error e)

/-- Function `commit_and_push_changes` of `go.py`: no-op on an empty file
set; in dry-run mode print the three intended actions and stop; otherwise
stage each file, commit (a failure whose stderr mentions `nothing to
commit` is benign), and push (a push failure is printed and swallowed). -/
def commit_and_push_changes {σ : Type} (exec : GitCmd → σ → σ × Except (List Char) Unit)
    (repo_dir : List Char) (files : List (List Char)) (commit_message : List Char)
    (dry_run : Bool) (s0 : σ) : GitRun σ :=
  if files = [] then ⟨s0, [], [], .ok ()⟩
  else
    let rel_files := files.map (fun p => pyRelpath p repo_dir)
    if dry_run then
      ⟨s0, [],
       [("    (dry-run) Would git add: ").data ++ pyJoin ((", ").data) rel_files,
        ("    (dry-run) Would git commit -m ").data ++ squote :: commit_message ++ [squote],
        ("    (dry-run) Would git push").data],
       .ok ()⟩
    else
      match runAdds exec rel_files s0 [] with
      | (s1, tr, .error e) => ⟨s1, tr, [], .error e⟩
      | (s1, tr, .ok _) =>
        match exec (GitCmd.commit commit_message) s1 with
        | (s2, .error e) =>
          if containsSeq (e.map Char.toLower) (("nothing to commit").data) then
            ⟨s2, tr ++ [GitCmd.commit commit_message], [("    Nothing to commit.").data], .ok ()⟩
          else ⟨s2, tr ++ [GitCmd.commit commit_message], [], .error e⟩
        | (s2, .ok _) =>
          match exec GitCmd.push s2 with
          | (s3, .ok _) =>
            ⟨s3, tr ++ [GitCmd.commit commit_message, GitCmd.push],
             [("    -> Changes pushed.").data], .ok ()⟩
          | (s3, .error e) =>
            ⟨s3, tr ++ [GitCmd.commit commit_message, GitCmd.push],
             [("    [!] git push failed: ").data ++ e], .ok ()⟩

/-! Section 10: the Batch Driver.  The `for` loop of `main` wraps each
repository's whole pipeline in `try/except Exception`, printing a line
carrying the offending spec on failure and continuing with the next
entry.  The per-repository pipeline is abstracted as
`process : spec → Except err Unit`. -/

/-- Loop of `main` over the repository list: the returned list holds the
error lines printed for failing entries, in order. -/
def batchDrive (process : List Char → Except (List Char) Unit) :
    List (List Char) → List (List Char)
  | [] => []
  | spec :: rest =>
    match process spec with
    | .ok _ => batchDrive process rest
    | .error e =>
      (("[!] Error processing ").data ++ spec ++ ((": ").data) ++ e) :: batchDrive process rest

/-! Section 11: helper lemmas on the string models. -/

/-- Lemma: `dropWhile` is the identity when no element satisfies the predicate. -/
theorem dropWhile_eq_self_of_all (p : Char → Bool) (l : List Char)
    (h : ∀ c ∈ l, p c = false) : l.dropWhile p = l := by
  cases l with
  | nil => rfl
  | cons a as =>
    rw [List.dropWhile_cons, h a (List.mem_cons_self a as)]
    simp

/-- Lemma: stripping a string with no whitespace anywhere changes nothing. -/
theorem pyStrip_eq_self (l : List Char) (h : ∀ c ∈ l, c.isWhitespace = false) :
    pyStrip l = l := by
  unfold pyStrip pyLstrip pyRstrip
  rw [dropWhile_eq_self_of_all _ l h]
  rw [dropWhile_eq_self_of_all _ l.reverse (fun c hc => h c (List.mem_reverse.mp hc))]
  exact List.reverse_reverse l

/-- Lemma: splitting on a character that does not occur returns the whole
string as the single piece. -/
theorem pySplitChar_of_not_mem {c : Char} {l : List Char} (h : c ∉ l) :
    pySplitChar c l = [l] := by
  induction l with
  | nil => rfl
  | cons a as ih =>
    have hac : a ≠ c := fun e => h (e ▸ List.mem_cons_self a as)
    have has : c ∉ as := fun m => h (List.mem_cons_of_mem a m)
    unfold pySplitChar
    rw [if_neg hac, ih has]

/-- Lemma: splitting at the first occurrence of the separator peels off the
piece before it. -/
theorem pySplitChar_append {c : Char} {a b : List Char} (h : c ∉ a) :
    pySplitChar c (a ++ c :: b) = a :: pySplitChar c b := by
  induction a with
  | nil => simp [pySplitChar]
  | cons x xs ih =>
    have hxc : x ≠ c := fun e => h (e ▸ List.mem_cons_self x xs)
    have hxs : c ∉ xs := fun m => h (List.mem_cons_of_mem x m)
    simp only [List.cons_append, pySplitChar, if_neg hxc, List.append_eq, ih hxs]

/-! Section 12: claim C2 — shape validation in `normalize_repo_spec`. -/

/-- Claim C2 counterexample: the claim says a spec with no scheme separator
and no SSH prefix must be exactly one `owner/name` pair, any other shape
being rejected; but `a/b/c` — two slashes — is accepted and normalized. -/
theorem claim_C2_counterexample :
    (("a/b/c").data).count '/' = 2
    ∧ normalize_repo_spec (("a/b/c").data)
        = .ok ((("https://github.com/a/b/c.git").data), (("c").data)) := by
  exact ⟨by decide, rfl⟩

/-- Claim C2 as amended: for input without a scheme separator and not
starting with `git@` (after stripping), `normalize_repo_spec` performs no
shape validation at all: it fails with the `InvalidSpec` error exactly when
the stripped input is empty, and otherwise accepts the spec whole,
synthesizing the HTTPS clone URL around it, with the part after the last
slash as the local name. -/
theorem claim_C2_amended (spec : List Char)
    (hscheme : containsSeq (pyStrip spec) ((("://")).data) = false)
    (hssh : seqStarts (pyStrip spec) ((("git@")).data) = false) :
    (normalize_repo_spec spec = .error (("Empty repository spec").data) ↔ pyStrip spec = [])
    ∧ (pyStrip spec = [] ∨ normalize_repo_spec spec
        = .ok ((("https://github.com/").data) ++ pyStrip spec ++ ((".git").data),
               (pySplitChar '/' (pyStrip spec)).getLastD [])) := by
  by_cases hempty : pyStrip spec = []
  · constructor
    · simp [normalize_repo_spec, hempty]
    · exact Or.inl hempty
  · constructor
    · simp [normalize_repo_spec, hempty, hscheme, hssh]
    · exact Or.inr (by simp [normalize_repo_spec, hempty, hscheme, hssh])

/-- Claim C2 witness: `x//y ` (two slashes, trailing blank) is accepted. -/
theorem claim_C2_witness :
    normalize_repo_spec (("x//y ").data)
      = .ok ((("https://github.com/x//y.git").data), (("y").data)) := by
  have h := (claim_C2_amended (("x//y ").data) (by decide) (by decide)).2
  exact (h.resolve_left (by decide)).trans rfl

/-! Section 13: claim C3 — the happy path of `normalize_repo_spec`. -/

/-- Claim C3: for a valid `owner/name` spec — exactly one slash, no
whitespace, no scheme separator, no SSH prefix — `normalize_repo_spec`
returns the HTTPS GitHub clone URL built around the spec and the `name`
segment as the local directory name. -/
theorem claim_C3_owner_name_spec (owner name : List Char)
    (howner : owner ≠ [])
    (hnw : ∀ c ∈ owner ++ '/' :: name, c.isWhitespace = false)
    (ho : '/' ∉ owner) (hn : '/' ∉ name)
    (hscheme : containsSeq (owner ++ '/' :: name) (("://").data) = false)
    (hssh : seqStarts (owner ++ '/' :: name) (("git@").data) = false) :
    normalize_repo_spec (owner ++ '/' :: name)
      = .ok ((("https://github.com/").data) ++ (owner ++ '/' :: name) ++ ((".git").data),
             name) := by
  have hstrip : pyStrip (owner ++ '/' :: name) = owner ++ '/' :: name :=
    pyStrip_eq_self _ hnw
  have hne : owner ++ '/' :: name ≠ [] := by
    intro e
    exact absurd (List.append_eq_nil.mp e).2 (by simp)
  have hsplit : pySplitChar '/' (owner ++ '/' :: name) = owner :: pySplitChar '/' name :=
    pySplitChar_append ho
  have hsplitn : pySplitChar '/' name = [name] := pySplitChar_of_not_mem hn
  simp only [normalize_repo_spec, hstrip, if_neg hne, hscheme, hssh, Bool.or_self,
    Bool.false_eq_true, if_false, hsplit, hsplitn]
  rfl

/-- Claim C3 witness at the concrete spec `octo/hello`. -/
theorem claim_C3_witness :
    normalize_repo_spec (("octo/hello").data)
      = .ok ((("https://github.com/octo/hello.git").data), (("hello").data)) := by
  have h := claim_C3_owner_name_spec (("octo").data) (("hello").data)
    (by decide) (by decide) (by decide) (by decide) (by decide) (by decide)
  exact h.trans rfl

/-! Section 14: claim C10 — the `RepoStats.record` invariant. -/

/-- Lemma: a counter update adds exactly its increment to the sum of values. -/
theorem sumVals_bumpEntry (m : List (List Char × Int)) (k : List Char) (v : Int) :
    sumVals (bumpEntry m k v) = sumVals m + v := by
  induction m with
  | nil => simp [bumpEntry, sumVals]
  | cons p rest ih =>
    obtain ⟨k2, v2⟩ := p
    by_cases h : k2 = k
    · simp only [bumpEntry, if_pos h, sumVals, List.map_cons, List.sum_cons]
      simp [sumVals] at *
      omega
    · simp only [bumpEntry, if_neg h, sumVals, List.map_cons, List.sum_cons]
      simp [sumVals] at ih ⊢
      omega

/-- Lemma: a counter update with a non-negative increment keeps every value
non-negative. -/
theorem allNonneg_bumpEntry (m : List (List Char × Int)) (k : List Char) (v : Int)
    (hv : 0 ≤ v) (hm : allNonneg m = true) : allNonneg (bumpEntry m k v) = true := by
  induction m with
  | nil => simpa [bumpEntry, allNonneg] using hv
  | cons p rest ih =>
    obtain ⟨k2, v2⟩ := p
    simp only [allNonneg, List.all_cons, Bool.and_eq_true, decide_eq_true_eq] at hm
    by_cases h : k2 = k
    · simp only [bumpEntry, if_pos h, allNonneg, List.all_cons, Bool.and_eq_true,
        decide_eq_true_eq]
      exact ⟨by omega, hm.2⟩
    · simp only [bumpEntry, if_neg h, allNonneg, List.all_cons, Bool.and_eq_true,
        decide_eq_true_eq]
      exact ⟨hm.1, ih hm.2⟩

/-- Invariant of the `RepoStats` container: the totals equal the sums of the
per-extension counters, and every counter is non-negative. -/
def StatsInv (st : RepoStats) : Prop :=
  st.total_files = sumVals st.by_ext_files
  ∧ st.total_lines = sumVals st.by_ext_lines
  ∧ allNonneg st.by_ext_files = true
  ∧ allNonneg st.by_ext_lines = true

/-- Lemma: `RepoStats.record` preserves the container invariant, for any
extension and any (possibly negative) line count. -/
theorem statsInv_record (st : RepoStats) (ext : List Char) (lc : Int)
    (h : StatsInv st) : StatsInv (st.record ext lc) := by
  obtain ⟨h1, h2, h3, h4⟩ := h
  refine ⟨?_, ?_, ?_, ?_⟩
  · simp only [RepoStats.record, sumVals_bumpEntry, h1]
  · simp only [RepoStats.record, sumVals_bumpEntry, h2]
  · exact allNonneg_bumpEntry _ _ _ (by omega) h3
  · exact allNonneg_bumpEntry _ _ _ (le_max_right lc 0) h4

/-- Lemma: folding `record` over any call sequence preserves the invariant. -/
theorem statsInv_foldl (calls : List (List Char × Int)) (st : RepoStats)
    (h : StatsInv st) :
    StatsInv (calls.foldl (fun s c => s.record c.1 c.2) st) := by
  induction calls generalizing st with
  | nil => exact h
  | cons c rest ih => exact ih _ (statsInv_record st c.1 c.2 h)

/-- Lemma: the sum of an all-non-negative counter list is non-negative. -/
theorem sumVals_nonneg (m : List (List Char × Int)) (h : allNonneg m = true) :
    0 ≤ sumVals m := by
  induction m with
  | nil => simp [sumVals]
  | cons p rest ih =>
    simp only [allNonneg, List.all_cons, Bool.and_eq_true, decide_eq_true_eq] at h
    have := ih (by simpa [allNonneg] using h.2)
    simp only [sumVals, List.map_cons, List.sum_cons]
    simp [sumVals] at this
    omega

/-- Claim C10: after any sequence of `record` calls with arbitrary (possibly
negative) line counts, `total_files` is the sum of `by_ext_files`,
`total_lines` is the sum of `by_ext_lines`, and every stored count — the
per-extension counters and both totals — is non-negative, negative line
counts having been clamped to zero by `max(line_count, 0)`. -/
theorem claim_C10_record_invariant (calls : List (List Char × Int)) :
    (runRecords calls).total_files = sumVals (runRecords calls).by_ext_files
    ∧ (runRecords calls).total_lines = sumVals (runRecords calls).by_ext_lines
    ∧ allNonneg (runRecords calls).by_ext_files = true
    ∧ allNonneg (runRecords calls).by_ext_lines = true
    ∧ 0 ≤ (runRecords calls).total_files
    ∧ 0 ≤ (runRecords calls).total_lines := by
  have h : StatsInv (runRecords calls) :=
    statsInv_foldl calls RepoStats.empty ⟨rfl, rfl, rfl, rfl⟩
  obtain ⟨h1, h2, h3, h4⟩ := h
  exact ⟨h1, h2, h3, h4, h1 ▸ sumVals_nonneg _ h3, h2 ▸ sumVals_nonneg _ h4⟩

/-! Section 15: claim C5 — the extension recorded by the Statistics
Collector. -/

/-- Lemma: `lastDotSuffix` yields nothing exactly when no dot occurs. -/
theorem lastDotSuffix_eq_none_iff (l : List Char) :
    lastDotSuffix l = none ↔ '.' ∉ l := by
  induction l with
  | nil => simp [lastDotSuffix]
  | cons c cs ih =>
    simp only [lastDotSuffix]
    cases h : lastDotSuffix cs with
    | some s =>
      have : '.' ∈ cs := by
        by_contra hx
        exact absurd (ih.mpr hx) (by simp [h])
      simp [List.mem_cons, this]
    | none =>
      by_cases hc : c = '.'
      · simp [hc]
      · have hcs : '.' ∉ cs := ih.mp h
        have hcc : ¬('.' = c) := fun e => hc e.symm
        simp [if_neg hc, List.mem_cons, hcs, hcc]

/-- Lemma: the last dot of an extended string is the last dot of its
suffix, when the suffix holds one. -/
theorem lastDotSuffix_append_some {b s : List Char} (a : List Char)
    (h : lastDotSuffix b = some s) : lastDotSuffix (a ++ b) = some s := by
  induction a with
  | nil => simpa using h
  | cons x xs ih =>
    simp only [List.cons_append, lastDotSuffix, List.append_eq, ih, h]

/-- Claim C5 counterexample: for the dotfile `.gitignore` the collector
records the empty extension, while the spec's formula — the lowercase
substring from the last dot inclusive — yields `.gitignore` itself. -/
theorem claim_C5_counterexample :
    (collect_repo_stats [(((".gitignore").data), 3)]).by_ext_files = [([], 1)]
    ∧ specExtensionModel ((".gitignore").data) = ((".gitignore").data)
    ∧ ((".gitignore").data) ≠ ([] : List Char) :=
  ⟨by decide, by decide, by decide⟩

/-- Claim C5 as amended: for every separator-free filename, the recorded
extension is the lowercase substring from the last dot inclusive exactly
when some character before that dot survives the leading-dot skip —
equivalently, when the name minus its leading dots still holds a dot;
otherwise (no dot at all, or a pure dotfile such as `.gitignore`) the
recorded extension is empty. -/
theorem claim_C5_amended (name : List Char) (hsep : '/' ∉ name) :
    collectExt name
      = if '.' ∈ name.dropWhile (fun c => c = '.')
        then specExtensionModel name else [] := by
  have hbase : (pySplitChar '/' name).getLastD [] = name := by
    rw [pySplitChar_of_not_mem hsep]
    rfl
  by_cases h : '.' ∈ name.dropWhile (fun c => c = '.')
  · cases hh : lastDotSuffix (name.dropWhile (fun c => c = '.')) with
    | none => exact absurd ((lastDotSuffix_eq_none_iff _).mp hh) (by simpa using h)
    | some s =>
      have hname : lastDotSuffix name = some s := by
        have hsplit := List.takeWhile_append_dropWhile
          (p := fun c => c = '.') (l := name)
        calc lastDotSuffix name
            = lastDotSuffix (name.takeWhile (fun c => c = '.')
                ++ name.dropWhile (fun c => c = '.')) := by rw [hsplit]
          _ = some s := lastDotSuffix_append_some _ hh
      rw [if_pos h]
      simp only [collectExt, os_path_splitext, splitextExtOf, hbase, hh,
        specExtensionModel, hname]
  · have hh : lastDotSuffix (name.dropWhile (fun c => c = '.')) = none :=
      (lastDotSuffix_eq_none_iff _).mpr (by simpa using h)
    rw [if_neg h]
    simp only [collectExt, os_path_splitext, splitextExtOf, hbase, hh, List.map_nil]

/-- Claim C5 witness: `Notes.TXT` is recorded under extension `.txt`. -/
theorem claim_C5_witness :
    ('/' ∉ (("Notes.TXT").data))
    ∧ collectExt (("Notes.TXT").data) = ((".txt").data) := by
  refine ⟨by decide, ?_⟩
  exact (claim_C5_amended (("Notes.TXT").data) (by decide)).trans (by decide)

/-! Section 16: claim C4 — account extraction from repository URLs. -/

/-- Lemma: `takeWhile` keeps a list all of whose elements pass the test. -/
theorem takeWhile_eq_self_of_all (p : Char → Bool) (l : List Char)
    (h : ∀ c ∈ l, p c = true) : l.takeWhile p = l := by
  induction l with
  | nil => rfl
  | cons x xs ih =>
    rw [List.takeWhile_cons, h x (List.mem_cons_self x xs),
      ih (fun c hc => h c (List.mem_cons_of_mem x hc))]
    simp

/-- Claim C4 counterexample: `https://github.com/owner/repo` points at the
hosting domain and has two path segments — a repository URL, which the
claim says is rejected with `InvalidAccount` — yet `parse_github_account`
returns the first segment `owner`. -/
theorem claim_C4_counterexample :
    (urlparseModel (("https://github.com/owner/repo").data)).netloc = (("github.com").data)
    ∧ ((pySplitChar '/' (urlparseModel (("https://github.com/owner/repo").data)).path).filter
        (fun part => part ≠ [])).length = 2
    ∧ parse_github_account (("https://github.com/owner/repo").data) = .ok (("owner").data) :=
  ⟨by decide, by decide, rfl⟩

/-- Claim C4 as amended: an HTTPS GitHub URL with two path segments — a
repository URL — is not rejected: `parse_github_account` returns its first
path segment (the account part).  Only bare, scheme-less strings holding a
slash take the `InvalidAccount` rejection path. -/
theorem claim_C4_amended (owner repo : List Char)
    (howner : owner ≠ [])
    (ho : ∀ c ∈ owner, c.isWhitespace = false ∧ c ≠ '/' ∧ c ≠ '?' ∧ c ≠ '#')
    (hr : ∀ c ∈ repo, c.isWhitespace = false ∧ c ≠ '/' ∧ c ≠ '?' ∧ c ≠ '#') :
    parse_github_account ((("https://github.com/").data) ++ owner ++ '/' :: repo)
      = .ok owner := by
  have hws : ∀ c ∈ (("https://github.com/").data) ++ owner ++ '/' :: repo,
      c.isWhitespace = false := by
    intro c hc
    rcases List.mem_append.mp hc with h12 | h34
    · rcases List.mem_append.mp h12 with h1 | h2
      · exact (by decide : ∀ c ∈ (("https://github.com/").data), c.isWhitespace = false) c h1
      · exact (ho c h2).1
    · rcases List.mem_cons.mp h34 with h3 | h4
      · subst h3; decide
      · exact (hr c h4).1
  have hstrip := pyStrip_eq_self _ hws
  have hsch : splitSchemePart ((("https://github.com/").data) ++ owner ++ '/' :: repo)
      = ((("https").data), (("//github.com/").data) ++ (owner ++ '/' :: repo)) := rfl
  have hnet : splitNetlocPart ((("//github.com/").data) ++ (owner ++ '/' :: repo))
      = ((("github.com").data), '/' :: (owner ++ '/' :: repo)) := rfl
  have hhash : ∀ c ∈ '/' :: (owner ++ '/' :: repo), (decide (c ≠ '#')) = true := by
    intro c hc
    rcases List.mem_cons.mp hc with h1 | h234
    · subst h1; decide
    · rcases List.mem_append.mp h234 with h2 | h34
      · simpa using (ho c h2).2.2.2
      · rcases List.mem_cons.mp h34 with h3 | h4
        · subst h3; decide
        · simpa using (hr c h4).2.2.2
  have hq : ∀ c ∈ '/' :: (owner ++ '/' :: repo), (decide (c ≠ '?')) = true := by
    intro c hc
    rcases List.mem_cons.mp hc with h1 | h234
    · subst h1; decide
    · rcases List.mem_append.mp h234 with h2 | h34
      · simpa using (ho c h2).2.2.1
      · rcases List.mem_cons.mp h34 with h3 | h4
        · subst h3; decide
        · simpa using (hr c h4).2.2.1
  have hpath : dropFragmentQuery ('/' :: (owner ++ '/' :: repo))
      = '/' :: (owner ++ '/' :: repo) := by
    unfold dropFragmentQuery
    rw [takeWhile_eq_self_of_all _ _ hhash, takeWhile_eq_self_of_all _ _ hq]
  have hparse : urlparseModel ((("https://github.com/").data) ++ owner ++ '/' :: repo)
      = ⟨(("https").data), (("github.com").data), '/' :: (owner ++ '/' :: repo)⟩ := by
    simp only [urlparseModel, hsch, hnet, hpath]
  have hom : '/' ∉ owner := fun h => (ho '/' h).2.1 rfl
  have hrm : '/' ∉ repo := fun h => (hr '/' h).2.1 rfl
  have hsplit2 : pySplitChar '/' ('/' :: (owner ++ '/' :: repo)) = [] :: owner :: [repo] := by
    have h1 : pySplitChar '/' ('/' :: (owner ++ '/' :: repo))
        = [] :: pySplitChar '/' (owner ++ '/' :: repo) := by
      simp [pySplitChar]
    rw [h1, pySplitChar_append hom, pySplitChar_of_not_mem hrm]
  have hfilter : (([] : List Char) :: owner :: [repo]).filter (fun part => part ≠ [])
      = owner :: ([repo].filter (fun part => part ≠ [])) := by
    simp [List.filter_cons, howner]
  simp only [parse_github_account, hstrip, hparse]
  rw [if_neg (by simp)]
  rw [if_pos (by simp)]
  rw [if_neg (by decide)]
  rw [hsplit2, hfilter]

/-- Claim C4 witness: the repository URL for `octocat/hello` yields the
account `octocat` rather than a rejection. -/
theorem claim_C4_witness :
    parse_github_account ((("https://github.com/").data) ++ (("octocat").data)
        ++ '/' :: (("hello").data))
      = .ok (("octocat").data) :=
  claim_C4_amended (("octocat").data) (("hello").data) (by decide) (by decide) (by decide)

/-! Section 17: claim C6 — determinism of ignore-file generation. -/

/-- Lookup in an extension-counter association list (Python `dict` access),
used to compare two `by_ext_files` maps pointwise. -/
def extLookup (m : List (List Char × Int)) (k : List Char) : Option Int :=
  match m with
  | [] => none
  | (k2, v) :: rest => if k2 = k then some v else extLookup rest k

set_option maxRecDepth 8000 in
/-- Claim C6 counterexample: two `RepoStats` whose `by_ext_files` maps are
equal as maps — the same two keys, with the same counts, merely inserted
in the opposite order — produce different `.gitignore` content, because
`detect_languages` follows dictionary insertion order and the python and
node fragments end up concatenated in opposite orders. -/
theorem claim_C6_counterexample :
    ((RepoStats.mk 2 0 [(((".py").data), 1), (((".js").data), 1)] []).by_ext_files.map
        Prod.fst).Perm
      ((RepoStats.mk 2 0 [(((".js").data), 1), (((".py").data), 1)] []).by_ext_files.map
        Prod.fst)
    ∧ extLookup (RepoStats.mk 2 0 [(((".py").data), 1), (((".js").data), 1)] []).by_ext_files
        ((".py").data)
      = extLookup (RepoStats.mk 2 0 [(((".js").data), 1), (((".py").data), 1)] []).by_ext_files
        ((".py").data)
    ∧ extLookup (RepoStats.mk 2 0 [(((".py").data), 1), (((".js").data), 1)] []).by_ext_files
        ((".js").data)
      = extLookup (RepoStats.mk 2 0 [(((".js").data), 1), (((".py").data), 1)] []).by_ext_files
        ((".js").data)
    ∧ generate_gitignore_content
        (detect_languages (RepoStats.mk 2 0 [(((".py").data), 1), (((".js").data), 1)] []))
      ≠ generate_gitignore_content
        (detect_languages (RepoStats.mk 2 0 [(((".js").data), 1), (((".py").data), 1)] [])) :=
  ⟨List.Perm.swap _ _ _, by decide, by decide, by decide⟩

/-- Claim C6 as amended: ignore-file generation is deterministic in the
extension-count association sequence — two `RepoStats` whose `by_ext_files`
hold the same keys with the same counts in the same iteration (insertion)
order always yield byte-identical `.gitignore` content; mere equality as
unordered maps is not enough, as the counterexample shows. -/
theorem claim_C6_amended (s1 s2 : RepoStats)
    (h : s1.by_ext_files = s2.by_ext_files) :
    generate_gitignore_content (detect_languages s1)
      = generate_gitignore_content (detect_languages s2) := by
  unfold detect_languages
  rw [h]

/-- Claim C6 witness: two containers differing in totals and line maps but
sharing the extension-count sequence produce identical content. -/
theorem claim_C6_witness :
    generate_gitignore_content
      (detect_languages (RepoStats.mk 5 7 [(((".py").data), 2)] [(((".py").data), 9)]))
      = generate_gitignore_content
        (detect_languages (RepoStats.mk 0 0 [(((".py").data), 2)] [])) :=
  claim_C6_amended _ _ rfl

/-! Section 18: claim C8 — per-repository failure isolation in the Batch
Driver. -/

/-- Lemma: a successfully processed entry adds nothing to the error log. -/
theorem batchDrive_cons_ok (process : List Char → Except (List Char) Unit) (x : List Char)
    (u : Unit) (hx : process x = .ok u) (rest : List (List Char)) :
    batchDrive process (x :: rest) = batchDrive process rest := by
  show (match process x with
    | .ok _ => batchDrive process rest
    | .error e => ((("[!] Error processing ").data) ++ x ++ (((": ")).data) ++ e)
        :: batchDrive process rest)
    = batchDrive process rest
  rw [hx]

/-- Lemma: a failing entry prepends exactly one error line carrying its
spec and error to the log of the remaining entries. -/
theorem batchDrive_cons_error (process : List Char → Except (List Char) Unit) (x : List Char)
    (e2 : List Char) (hx : process x = .error e2) (rest : List (List Char)) :
    batchDrive process (x :: rest)
      = ((("[!] Error processing ").data) ++ x ++ (((": ")).data) ++ e2)
        :: batchDrive process rest := by
  show (match process x with
    | .ok _ => batchDrive process rest
    | .error e => ((("[!] Error processing ").data) ++ x ++ (((": ")).data) ++ e)
        :: batchDrive process rest)
    = ((("[!] Error processing ").data) ++ x ++ (((": ")).data) ++ e2)
        :: batchDrive process rest
  rw [hx]

/-- Claim C8: if any one entry of the repository list fails with any
exception, the Batch Driver logs one line carrying the offending spec and
the error, and the batch continues: the entries before and after the
failing one are processed exactly as they would be on their own, so no
single repository's failure aborts the batch. -/
theorem claim_C8_batch_isolation (process : List Char → Except (List Char) Unit)
    (pre post : List (List Char)) (spec e : List Char)
    (h : process spec = .error e) :
    batchDrive process (pre ++ spec :: post)
      = batchDrive process pre
        ++ ((("[!] Error processing ").data) ++ spec ++ (((": ")).data) ++ e)
          :: batchDrive process post := by
  induction pre with
  | nil =>
    rw [List.nil_append, batchDrive_cons_error process spec e h post]
    rfl
  | cons x xs ih =>
    cases hx : process x with
    | ok u =>
      rw [List.cons_append, batchDrive_cons_ok process x u hx,
        batchDrive_cons_ok process x u hx, ih]
    | error e2 =>
      rw [List.cons_append, batchDrive_cons_error process x e2 hx,
        batchDrive_cons_error process x e2 hx, ih]
      simp

/-- One concrete per-repository pipeline for the C8 witness: the spec
`bad` raises, every other spec succeeds. -/
def procOneFails : List Char → Except (List Char) Unit :=
  fun s => if s = (("bad").data) then .error (("boom").data) else .ok ()

/-- Claim C8 witness: with `bad` failing between two healthy specs, the
driver logs the one error line and still processes the suffix. -/
theorem claim_C8_witness :
    batchDrive procOneFails ([(("ok1").data)] ++ (("bad").data) :: [(("ok2").data)])
      = batchDrive procOneFails [(("ok1").data)]
        ++ ((("[!] Error processing ").data) ++ (("bad").data) ++ (((": ")).data)
            ++ (("boom").data))
          :: batchDrive procOneFails [(("ok2").data)] :=
  claim_C8_batch_isolation procOneFails [(("ok1").data)] [(("ok2").data)]
    (("bad").data) (("boom").data) rfl

/-! Section 19: claim C9 — the Publisher's dry run makes no repository
mutation. -/

/-- Claim C9: with the dry-run flag set and a non-empty created-file set,
`commit_and_push_changes` invokes no git command at all (empty trace, so
no stage, commit or push), leaves the repository state untouched, succeeds,
and prints exactly the three lines reporting the intended add, commit and
push actions. -/
theorem claim_C9_dry_run {σ : Type} (exec : GitCmd → σ → σ × Except (List Char) Unit)
    (repo_dir : List Char) (files : List (List Char)) (commit_message : List Char)
    (s0 : σ) (h : files ≠ []) :
    (commit_and_push_changes exec repo_dir files commit_message true s0).state = s0
    ∧ (commit_and_push_changes exec repo_dir files commit_message true s0).trace = []
    ∧ (commit_and_push_changes exec repo_dir files commit_message true s0).result = .ok ()
    ∧ (commit_and_push_changes exec repo_dir files commit_message true s0).prints
        = [(("    (dry-run) Would git add: ").data)
             ++ pyJoin (((", ")).data) (files.map (fun p => pyRelpath p repo_dir)),
           (("    (dry-run) Would git commit -m ").data) ++ squote :: commit_message ++ [squote],
           (("    (dry-run) Would git push").data)] := by
  unfold commit_and_push_changes
  rw [if_neg h]
  exact ⟨rfl, rfl, rfl, rfl⟩

/-- Claim C9 witness at a concrete state type, oracle and file set: the
state is returned unchanged, the trace is empty, and the add line names the
relative path `LICENSE`. -/
theorem claim_C9_witness :
    (commit_and_push_changes (fun (_ : GitCmd) (s : Nat) => (s + 1, Except.ok ()))
        (("d").data) [(("d/LICENSE").data)] (("add files").data) true 0).state = 0
    ∧ (commit_and_push_changes (fun (_ : GitCmd) (s : Nat) => (s + 1, Except.ok ()))
        (("d").data) [(("d/LICENSE").data)] (("add files").data) true 0).trace = []
    ∧ (commit_and_push_changes (fun (_ : GitCmd) (s : Nat) => (s + 1, Except.ok ()))
        (("d").data) [(("d/LICENSE").data)] (("add files").data) true 0).result = .ok ()
    ∧ (commit_and_push_changes (fun (_ : GitCmd) (s : Nat) => (s + 1, Except.ok ()))
        (("d").data) [(("d/LICENSE").data)] (("add files").data) true 0).prints
        = [(("    (dry-run) Would git add: LICENSE").data),
           (("    (dry-run) Would git commit -m ").data)
             ++ squote :: (("add files").data) ++ [squote],
           (("    (dry-run) Would git push").data)] := by
  obtain ⟨h1, h2, h3, h4⟩ := claim_C9_dry_run
    (fun (_ : GitCmd) (s : Nat) => (s + 1, Except.ok ()))
    (("d").data) [(("d/LICENSE").data)] (("add files").data) 0 (by decide)
  exact ⟨h1, h2, h3, h4.trans (by decide)⟩

/-! Section 20: claim C1 — the provisioning invariant. -/

/-- Lemma: reversal does not change whether some character is non-whitespace. -/
theorem hasNonWs_reverse (l : List Char) : hasNonWs l.reverse = hasNonWs l := by
  unfold hasNonWs
  simp [List.any_eq_true, List.mem_reverse]

/-- Lemma: dropping leading whitespace does not change whether some
character is non-whitespace. -/
theorem hasNonWs_dropWhile_ws (l : List Char) :
    hasNonWs (l.dropWhile Char.isWhitespace) = hasNonWs l := by
  unfold hasNonWs
  conv_rhs => rw [← List.takeWhile_append_dropWhile (p := Char.isWhitespace) (l := l)]
  rw [List.any_append]
  have htw : (l.takeWhile Char.isWhitespace).any (fun c => !c.isWhitespace) = false := by
    rw [List.any_eq_false]
    intro x hx
    simpa using List.mem_takeWhile_imp hx
  rw [htw, Bool.false_or]

/-- Lemma: stripping preserves the presence of a non-whitespace character. -/
theorem hasNonWs_pyStrip (l : List Char) : hasNonWs (pyStrip l) = hasNonWs l := by
  unfold pyStrip pyLstrip pyRstrip
  rw [hasNonWs_reverse, hasNonWs_dropWhile_ws, hasNonWs_reverse, hasNonWs_dropWhile_ws]

/-- Lemma: a string holding a non-whitespace character does not strip to
nothing. -/
theorem pyStrip_ne_nil_of_hasNonWs (l : List Char) (h : hasNonWs l = true) :
    pyStrip l ≠ [] := by
  intro e
  have h2 := hasNonWs_pyStrip l
  rw [e] at h2
  rw [← h2] at h
  exact absurd h (by decide)

/-- Lemma: a join starting from a first part extends that part. -/
theorem pyJoin_cons (sep x : List Char) (xs : List (List Char)) :
    ∃ t, pyJoin sep (x :: xs) = x ++ t := by
  cases xs with
  | nil => exact ⟨[], by simp [pyJoin]⟩
  | cons y ys => exact ⟨sep ++ pyJoin sep (y :: ys), by simp [pyJoin, List.append_assoc]⟩

/-- Lemma: generated ignore-file content always holds a non-whitespace
character, whatever languages were detected, because the mandatory base
fragment opens with `# General`. -/
theorem generate_hasNonWs (languages : List (List Char)) :
    hasNonWs (generate_gitignore_content languages) = true := by
  simp only [generate_gitignore_content]
  have hbase : (match assocLookup GITIGNORE_TEMPLATES (("base").data) with
      | some b => if b = [] then [] else [pyRstrip b]
      | none => ([] : List (List Char))) = [pyRstrip (gitignoreBase.data)] := rfl
  rw [hbase, List.singleton_append]
  obtain ⟨t, ht⟩ := pyJoin_cons ((("\n\n")).data) (pyRstrip (gitignoreBase.data))
    (languages.filterMap (fun language =>
      match assocLookup GITIGNORE_TEMPLATES language with
      | some snippet => if snippet = [] then none else some (pyRstrip snippet)
      | none => none))
  rw [ht]
  have hhead : hasNonWs (pyRstrip (gitignoreBase.data) ++ t) = true := by
    unfold hasNonWs
    rw [List.any_append]
    have : hasNonWs (pyRstrip (gitignoreBase.data)) = true := by decide
    unfold hasNonWs at this
    rw [this, Bool.true_or]
  rw [if_neg (pyStrip_ne_nil_of_hasNonWs _ hhead)]
  unfold hasNonWs
  rw [List.any_append]
  have hs : hasNonWs (pyStrip (pyRstrip (gitignoreBase.data) ++ t)) = true := by
    rw [hasNonWs_pyStrip]
    exact hhead
  unfold hasNonWs at hs
  rw [hs, Bool.true_or]

/-- Lemma: `write_gitignore` always has content to write — the skip branch
for empty content is dead code given the mandatory base fragment — so the
name it creates is always `.gitignore`. -/
theorem write_gitignore_name_eq (stats : RepoStats) :
    write_gitignore_name stats = some ((".gitignore").data) := by
  unfold write_gitignore_name
  rw [if_neg (pyStrip_ne_nil_of_hasNonWs _ (generate_hasNonWs (detect_languages stats)))]

/-- Lemma: joining distinct names under the same directory yields distinct
paths. -/
theorem pathJoin_inj (d a b : List Char) : pathJoin d a = pathJoin d b ↔ a = b := by
  unfold pathJoin
  constructor
  · intro h
    have h2 := List.append_cancel_left h
    injection h2
  · intro h
    rw [h]

/-- Claim C1: in the provisioning step, each governance file is written if
and only if its probe finds none of the fixed candidate filenames at the
mirror root (so an existing candidate suppresses that category's write
entirely), while the statistics report `REPO_STATS.md` is written exactly
when it was requested, regardless of what already exists. -/
theorem claim_C1_provision_iff (repo_dir : List Char) (fs : List Char → Bool)
    (stats : RepoStats) (write_stats_file_flag : Bool) :
    (pathJoin repo_dir (("LICENSE").data)
        ∈ provisionFiles repo_dir fs stats write_stats_file_flag
      ↔ has_license fs = false)
    ∧ (pathJoin repo_dir (("README.md").data)
        ∈ provisionFiles repo_dir fs stats write_stats_file_flag
      ↔ has_readme fs = false)
    ∧ (pathJoin repo_dir (("AGENTS.md").data)
        ∈ provisionFiles repo_dir fs stats write_stats_file_flag
      ↔ has_agents fs = false)
    ∧ (pathJoin repo_dir ((".gitignore").data)
        ∈ provisionFiles repo_dir fs stats write_stats_file_flag
      ↔ has_gitignore fs = false)
    ∧ (pathJoin repo_dir (("REPO_STATS.md").data)
        ∈ provisionFiles repo_dir fs stats write_stats_file_flag
      ↔ write_stats_file_flag = true) := by
  have e12 : ((("LICENSE").data) : List Char) ≠ (("README.md").data) := by decide
  have e13 : ((("LICENSE").data) : List Char) ≠ (("AGENTS.md").data) := by decide
  have e14 : ((("LICENSE").data) : List Char) ≠ ((".gitignore").data) := by decide
  have e15 : ((("LICENSE").data) : List Char) ≠ (("REPO_STATS.md").data) := by decide
  have e23 : ((("README.md").data) : List Char) ≠ (("AGENTS.md").data) := by decide
  have e24 : ((("README.md").data) : List Char) ≠ ((".gitignore").data) := by decide
  have e25 : ((("README.md").data) : List Char) ≠ (("REPO_STATS.md").data) := by decide
  have e34 : ((("AGENTS.md").data) : List Char) ≠ ((".gitignore").data) := by decide
  have e35 : ((("AGENTS.md").data) : List Char) ≠ (("REPO_STATS.md").data) := by decide
  have e45 : (((".gitignore").data) : List Char) ≠ (("REPO_STATS.md").data) := by decide
  cases h1 : has_license fs <;> cases h2 : has_readme fs <;> cases h3 : has_agents fs
    <;> cases h4 : has_gitignore fs <;> cases h5 : write_stats_file_flag <;>
    simp_all [provisionFiles, write_gitignore_name_eq, List.mem_append, pathJoin_inj,
      List.mem_singleton]

/-! Section 21: claim C7 — the repository list file round trip. -/

/-- Lemma: the code-point order on strings is total. -/
theorem lexLe_total : ∀ a b : List Char, lexLe a b = true ∨ lexLe b a = true
  | [], _ => Or.inl rfl
  | _ :: _, [] => Or.inr rfl
  | a :: as, b :: bs => by
    by_cases hab : a = b
    · subst hab
      rcases lexLe_total as bs with h | h
      · exact Or.inl (by simp [lexLe, h])
      · exact Or.inr (by simp [lexLe, h])
    · rcases lt_trichotomy a b with hlt | heq | hgt
      · exact Or.inl (by simp [lexLe, hab, hlt])
      · exact absurd heq hab
      · have hba : ¬b = a := fun e => hab e.symm
        exact Or.inr (by simp [lexLe, hba, hgt])

/-- Lemma: the code-point order on strings is transitive. -/
theorem lexLe_trans : ∀ a b c : List Char,
    lexLe a b = true → lexLe b c = true → lexLe a c = true
  | [], _, _, _, _ => rfl
  | _ :: _, [], _, h1, _ => by simp [lexLe] at h1
  | _ :: _, _ :: _, [], _, h2 => by simp [lexLe] at h2
  | a :: as, b :: bs, c :: cs, h1, h2 => by
    by_cases hab : a = b <;> by_cases hbc : b = c
    · subst hab; subst hbc
      simp only [lexLe, if_pos rfl] at h1 h2 ⊢
      exact lexLe_trans as bs cs h1 h2
    · subst hab
      simp only [lexLe, if_neg hbc, decide_eq_true_eq] at h2 ⊢
      exact h2
    · subst hbc
      simp only [lexLe, if_neg hab, decide_eq_true_eq] at h1 ⊢
      exact h1
    · simp only [lexLe, if_neg hab, if_neg hbc, decide_eq_true_eq] at h1 h2
      have hac : a < c := lt_trans h1 h2
      simp only [lexLe, if_neg (ne_of_lt hac), decide_eq_true_eq]
      exact hac

instance : IsTotal String pyStrLe :=
  ⟨fun a b => lexLe_total a.data b.data⟩

instance : IsTrans String pyStrLe :=
  ⟨fun a b c h1 h2 => lexLe_trans a.data b.data c.data h1 h2⟩

/-- Lemma: membership in the de-duplication accumulator form. -/
theorem mem_pyDedupAux (l : List String) : ∀ (seen : List String) (x : String),
    x ∈ pyDedupAux seen l ↔ x ∈ l ∧ x ∉ seen := by
  induction l with
  | nil => intro seen x; simp [pyDedupAux]
  | cons y ys ih =>
    intro seen x
    by_cases hy : y ∈ seen
    · rw [pyDedupAux, if_pos hy, ih seen x]
      constructor
      · intro ⟨hx, hs⟩
        exact ⟨List.mem_cons_of_mem y hx, hs⟩
      · intro ⟨hx, hs⟩
        rcases List.mem_cons.mp hx with he | hm
        · exact absurd (he ▸ hy) hs
        · exact ⟨hm, hs⟩
    · rw [pyDedupAux, if_neg hy]
      constructor
      · intro hx
        rcases List.mem_cons.mp hx with he | hm
        · exact ⟨he ▸ List.mem_cons_self y ys, he ▸ hy⟩
        · have := (ih (y :: seen) x).mp hm
          exact ⟨List.mem_cons_of_mem y this.1,
            fun hs => this.2 (List.mem_cons_of_mem y hs)⟩
      · intro ⟨hx, hs⟩
        rcases List.mem_cons.mp hx with he | hm
        · exact he ▸ List.mem_cons_self y (pyDedupAux (y :: seen) ys)
        · by_cases hxy : x = y
          · exact hxy ▸ List.mem_cons_self y (pyDedupAux (y :: seen) ys)
          · refine List.mem_cons_of_mem y ((ih (y :: seen) x).mpr ⟨hm, ?_⟩)
            intro hys
            rcases List.mem_cons.mp hys with h1 | h2
            · exact hxy h1
            · exact hs h2

/-- Lemma: membership in the de-duplicated list is membership in the
original. -/
theorem mem_pyDedup (l : List String) (x : String) : x ∈ pyDedup l ↔ x ∈ l := by
  rw [pyDedup, mem_pyDedupAux]
  simp

/-- Lemma: de-duplication leaves no duplicates. -/
theorem nodup_pyDedupAux (l : List String) : ∀ seen : List String,
    (pyDedupAux seen l).Nodup := by
  induction l with
  | nil => intro seen; simp [pyDedupAux]
  | cons y ys ih =>
    intro seen
    by_cases hy : y ∈ seen
    · rw [pyDedupAux, if_pos hy]
      exact ih seen
    · rw [pyDedupAux, if_neg hy]
      refine List.Nodup.cons ?_ (ih (y :: seen))
      intro hmem
      exact ((mem_pyDedupAux ys (y :: seen) y).mp hmem).2 (List.mem_cons_self y seen)

/-- Lemma: the de-duplicated list has no duplicates. -/
theorem nodup_pyDedup (l : List String) : (pyDedup l).Nodup :=
  nodup_pyDedupAux l []

/-- Lemma: reading one written line: the accumulator so far, the entry and
its newline become one line, and scanning restarts cleanly after it. -/
theorem fileLinesAux_entry (e : List Char) : ∀ (acc rest : List Char), '\n' ∉ e →
    fileLinesAux acc (e ++ '\n' :: rest)
      = ((acc.reverse ++ e) ++ ['\n']) :: fileLinesAux [] rest := by
  induction e with
  | nil =>
    intro acc rest _
    simp [fileLinesAux]
  | cons c cs ih =>
    intro acc rest h
    have hc : c ≠ '\n' := fun e2 => h (e2 ▸ List.mem_cons_self c cs)
    have hcs : '\n' ∉ cs := fun m => h (List.mem_cons_of_mem c m)
    rw [List.cons_append, fileLinesAux, if_neg hc, ih (c :: acc) rest hcs]
    simp [List.append_assoc]

/-- Lemma: the lines of a file written as newline-terminated entries are
exactly those entries, each keeping its newline. -/
theorem fileLines_entries (entries : List String)
    (h : ∀ e ∈ entries, '\n' ∉ e.data) :
    fileLines (entries.foldr (fun r acc => r.data ++ '\n' :: acc) [])
      = entries.map (fun e => e.data ++ ['\n']) := by
  induction entries with
  | nil => rfl
  | cons e es ih =>
    have he : '\n' ∉ e.data := h e (List.mem_cons_self e es)
    have hes : ∀ x ∈ es, '\n' ∉ x.data := fun x hx => h x (List.mem_cons_of_mem e hx)
    rw [List.foldr_cons, List.map_cons]
    unfold fileLines
    rw [fileLinesAux_entry e.data [] _ he, List.reverse_nil, List.nil_append]
    rw [← fileLines, ih hes]

/-- Lemma: stripping the newline back off a newline-free entry's line
recovers the entry. -/
theorem pyRstripNl_entry (e : List Char) (h : '\n' ∉ e) :
    pyRstripNl (e ++ ['\n']) = e := by
  unfold pyRstripNl
  rw [List.reverse_append]
  have : (['\n'].reverse ++ e.reverse).dropWhile (fun c => c = '\n')
      = e.reverse.dropWhile (fun c => c = '\n') := by
    simp [List.dropWhile]
  rw [this, dropWhile_eq_self_of_all _ e.reverse
    (fun c hc => by
      have : c ≠ '\n' := fun e2 => h (e2 ▸ List.mem_reverse.mp hc)
      simpa using this),
    List.reverse_reverse]

/-- Claim C7: writing a repository list and reading it back yields exactly
the de-duplicated, sorted version of the original entries: the result is
the sorted de-duplication itself, holds no duplicated entry, is sorted in
code-point order, and holds exactly the set of original entries (equality
being exact and case-sensitive, as string equality is). -/
theorem claim_C7_roundtrip (repos : List String) (h : ∀ r ∈ repos, '\n' ∉ r.data) :
    read_repo_list (write_repo_list repos) = pySorted (pyDedup repos)
    ∧ (read_repo_list (write_repo_list repos)).Nodup
    ∧ List.Sorted pyStrLe (read_repo_list (write_repo_list repos))
    ∧ (read_repo_list (write_repo_list repos)).toFinset = repos.toFinset := by
  have hsub : ∀ e ∈ pySorted (pyDedup repos), '\n' ∉ e.data := by
    intro e he
    have h1 : e ∈ pyDedup repos := (List.mem_insertionSort pyStrLe).mp he
    exact h e ((mem_pyDedup repos e).mp h1)
  have hread : read_repo_list (write_repo_list repos) = pySorted (pyDedup repos) := by
    unfold read_repo_list write_repo_list
    rw [fileLines_entries (pySorted (pyDedup repos)) hsub, List.map_map]
    have : ∀ e ∈ pySorted (pyDedup repos),
        (fun l => String.mk (pyRstripNl l)) ((fun e => e.data ++ ['\n']) e) = id e := by
      intro e he
      simp only [Function.comp, id]
      rw [pyRstripNl_entry e.data (hsub e he)]
    calc (pySorted (pyDedup repos)).map
          ((fun l => String.mk (pyRstripNl l)) ∘ (fun e => e.data ++ ['\n']))
        = (pySorted (pyDedup repos)).map id := List.map_congr_left this
      _ = pySorted (pyDedup repos) := List.map_id _
  refine ⟨hread, ?_, ?_, ?_⟩
  · rw [hread]
    exact ((List.perm_insertionSort pyStrLe (pyDedup repos)).nodup_iff).mpr
      (nodup_pyDedup repos)
  · rw [hread]
    exact List.sorted_insertionSort pyStrLe (pyDedup repos)
  · rw [hread]
    ext x
    simp only [List.mem_toFinset, pySorted]
    rw [List.mem_insertionSort, mem_pyDedup]

/-- Claim C7 witness: the list `b/r2, a/r1, b/r2` round-trips to the
sorted, de-duplicated `a/r1, b/r2`. -/
theorem claim_C7_witness :
    read_repo_list (write_repo_list ["b/r2", "a/r1", "b/r2"])
      = pySorted (pyDedup ["b/r2", "a/r1", "b/r2"])
    ∧ (read_repo_list (write_repo_list ["b/r2", "a/r1", "b/r2"])).Nodup
    ∧ List.Sorted pyStrLe (read_repo_list (write_repo_list ["b/r2", "a/r1", "b/r2"]))
    ∧ (read_repo_list (write_repo_list ["b/r2", "a/r1", "b/r2"])).toFinset
        = (["b/r2", "a/r1", "b/r2"] : List String).toFinset :=
  claim_C7_roundtrip ["b/r2", "a/r1", "b/r2"] (by decide)
